import Mathlib

/-!
Verification development for the `lowa` NFC card registry
(`src/sys/main.rs`, `src/sys/errors.rs`).

The data model and operations are shallowly embedded from the Rust source:
machine integers (`u8`, `u16`) become `Nat` with explicit bounds where they
matter, the `BTreeMap<u16, Card>` becomes a key-sorted association list, and
fallible conversions return `Except`.  The serde-generated wire format is not
part of `src/` (it is decided by dependency code pinned outside `src/`), so
the byte encoding/decoding is modelled from the spec, as noted on the
relevant definitions.
-/

deriving instance DecidableEq for Except

namespace Lowa

/-! ## Permissions (src/sys/main.rs lines 12-37)

`bitflags! { pub struct Permissions: u8 { ... } }` with six flags.
The bitmask is carried as a `Nat`; all constructible values fit in a `u8`.
The bitwise operations mirror the bitflags operations used by the source. -/

/-- The `Permissions` bitmask type: a `u8` of capability bits. -/
structure Permissions where
  bits : Nat
deriving DecidableEq

namespace Permissions

/-- `const NONE = 1 << 0` -/
def NONE : Permissions := ⟨1⟩

/-- `const REGULAR = 1 << 1` -/
def REGULAR : Permissions := ⟨2⟩

/-- `const IT_SUPPORT = 1 << 2` -/
def IT_SUPPORT : Permissions := ⟨4⟩

/-- `const OPEN_DOORS = 1 << 3` -/
def OPEN_DOORS : Permissions := ⟨8⟩

/-- `const ADMIN = 1 << 4` -/
def ADMIN : Permissions := ⟨16⟩

/-- `const SUPER_ADMIN = 1 << 5` -/
def SUPER_ADMIN : Permissions := ⟨32⟩

/-- bitflags `all()`: the union of every named flag. -/
def all : Permissions :=
  ⟨NONE.bits ||| REGULAR.bits ||| IT_SUPPORT.bits ||| OPEN_DOORS.bits |||
    ADMIN.bits ||| SUPER_ADMIN.bits⟩

/-- bitflags `contains`: true iff every bit of `other` is set in `self`. -/
def contains (self other : Permissions) : Bool :=
  self.bits &&& other.bits == other.bits

/-- bitflags `union`: bitwise or. -/
def union (self other : Permissions) : Permissions :=
  ⟨self.bits ||| other.bits⟩

/-- bitflags `intersection`: bitwise and. -/
def intersect (self other : Permissions) : Permissions :=
  ⟨self.bits &&& other.bits⟩

/-- bitflags `difference`: `self & !other`, with `!` the `u8` complement. -/
def difference (self other : Permissions) : Permissions :=
  ⟨self.bits &&& (255 ^^^ other.bits)⟩

/-- bitflags `symmetric_difference`: bitwise xor. -/
def symmetric_difference (self other : Permissions) : Permissions :=
  ⟨self.bits ^^^ other.bits⟩

/-- `Permissions::privileged()`: `Self::all().symmetric_difference(Self::NONE)`
(src/sys/main.rs lines 31-37). -/
def privileged : Permissions :=
  all.symmetric_difference NONE

/-- A permission value is recognized when every set bit is one of the six
named flags, i.e. it lies inside `all()`.  Decoding rejects other values. -/
def recognized (p : Permissions) : Bool :=
  p.bits &&& all.bits == p.bits

end Permissions

/-! ## Card (src/sys/main.rs lines 47-97) -/

/-- `pub struct Card { id: u16, permissions: Permissions }`. -/
structure Card where
  id : Nat
  permissions : Permissions
deriving DecidableEq

namespace Card

/-- `Card::new(id, permissions)`: total constructor. -/
def new (id : Nat) (permissions : Permissions) : Card :=
  ⟨id, permissions⟩

/-- `Card::is(perms)`: `self.permissions.contains(perms)`. -/
def is (self : Card) (perms : Permissions) : Bool :=
  self.permissions.contains perms

end Card

/-! ## Errors (src/sys/errors.rs) -/

/-- `ConversionError { message: &str, bytes: &[u8] }`; the byte slice is
modelled as the list of its (ASCII) characters. -/
structure ConversionError where
  message : String
  bytes : List Char
deriving DecidableEq

/-! ## Wire format (src/sys/main.rs lines 86-109)

`Card::as_bytes` is `serde_json::to_vec(self).unwrap_unchecked()` and
`Card::from_bytes` is `serde_json::from_slice` with every serde error mapped
to `ConversionError::new("Cant convert to Card", value)`.  The serde code
itself is dependency code pinned outside `src/`, so the concrete JSON format
is modelled from the spec (section 6): a textual JSON object with exactly two
fields, `id` (unsigned integer, 0-65535) and `permissions` (unsigned small
integer bitmask, recognized bits only; any other bit is a decode error). -/

/-- The character for decimal digit `d`. -/
def dChar (d : Nat) : Char := Char.ofNat (48 + d)

/-- Little-endian digit characters of `n`, with `fuel` bounding recursion
depth (any `fuel ≥ n` is enough). -/
def printNatAux : Nat → Nat → List Char
  | 0, _ => []
  | fuel + 1, n => if n = 0 then [] else dChar (n % 10) :: printNatAux fuel (n / 10)

/-- Modelled from the spec: the canonical decimal rendering of an unsigned
integer, as serde_json prints it. -/
def printNat (n : Nat) : List Char :=
  if n = 0 then [dChar 0] else (printNatAux n n).reverse

/-- Left brace character (ASCII 123). -/
def lbrace : Char := '\x7b'

/-- Right brace character (ASCII 125). -/
def rbrace : Char := '\x7d'

/-- The JSON key token `"id"`. -/
def idKey : List Char := ['\"', 'i', 'd', '\"']

/-- The JSON key token `"permissions"`. -/
def permKey : List Char :=
  ['\"', 'p', 'e', 'r', 'm', 'i', 's', 's', 'i', 'o', 'n', 's', '\"']

/-- Modelled from the spec: the serde_json encoding of a Card with id `i` and
permission bits `m` is the compact JSON object with the two fields in
declaration order. -/
def cardText (i m : Nat) : List Char :=
  [lbrace] ++ idKey ++ [':'] ++ printNat i ++ [','] ++ permKey ++ [':'] ++
    printNat m ++ [rbrace]

/-- Modelled from the spec: `serde_json::to_vec` on a Card.  Serializing a
two-field record of unsigned integers into JSON text always succeeds, so the
error branch of the `Except` is never produced. -/
def serde_json_to_vec (c : Card) : Except String (List Char) :=
  Except.ok (cardText c.id c.permissions.bits)

/-- `Card::as_bytes` (src/sys/main.rs lines 91-96): the serialized bytes,
with the source's unchecked unwrap modelled by returning `[]` on the
(unreachable) error branch. -/
def Card.as_bytes (c : Card) : List Char :=
  match serde_json_to_vec c with
  | Except.ok bs => bs
  | Except.error _ => []

/-- JSON whitespace predicate (space, tab, line feed, carriage return). -/
def isWs (c : Char) : Bool :=
  c.toNat == 32 || c.toNat == 9 || c.toNat == 10 || c.toNat == 13

/-- Drop leading JSON whitespace. -/
def skipWs : List Char → List Char
  | [] => []
  | c :: rest => if isWs c then skipWs rest else c :: rest

/-- Match a literal token, returning the remainder. -/
def dropLit : List Char → List Char → Option (List Char)
  | [], cs => some cs
  | l :: ls, c :: cs => if c = l then dropLit ls cs else none
  | _ :: _, [] => none

/-- Match a literal token after optional whitespace. -/
def token (lit cs : List Char) : Option (List Char) :=
  dropLit lit (skipWs cs)

/-- Decimal digit character predicate. -/
def isDigitChar (c : Char) : Bool :=
  48 ≤ c.toNat && c.toNat ≤ 57

/-- Split a leading run of digit characters (as digit values, most
significant first) from the remainder. -/
def parseDigits : List Char → List Nat × List Char
  | [] => ([], [])
  | c :: rest =>
    if isDigitChar c then
      let p := parseDigits rest
      ((c.toNat - 48) :: p.1, p.2)
    else ([], c :: rest)

/-- Parse a decimal natural number (at least one digit). -/
def parseNat (cs : List Char) : Option (Nat × List Char) :=
  match parseDigits cs with
  | ([], _) => none
  | (ds, rest) => some (Nat.ofDigits 10 ds.reverse, rest)

/-- Parse a decimal natural number after optional whitespace. -/
def parseNatToken (cs : List Char) : Option (Nat × List Char) :=
  parseNat (skipWs cs)

/-- Modelled from the spec: parse a buffer as the two-field Card JSON object,
returning the raw `id` and `permissions` numbers.  Whitespace is allowed
around tokens and the whole input must be consumed. -/
def parseCardJson (bs : List Char) : Option (Nat × Nat) :=
  match token [lbrace] bs with
  | none => none
  | some r1 =>
  match token idKey r1 with
  | none => none
  | some r2 =>
  match token [':'] r2 with
  | none => none
  | some r3 =>
  match parseNatToken r3 with
  | none => none
  | some (i, r4) =>
  match token [','] r4 with
  | none => none
  | some r5 =>
  match token permKey r5 with
  | none => none
  | some r6 =>
  match token [':'] r6 with
  | none => none
  | some r7 =>
  match parseNatToken r7 with
  | none => none
  | some (m, r8) =>
  match token [rbrace] r8 with
  | none => none
  | some r9 => if skipWs r9 = [] then some (i, m) else none

/-- `Card::from_bytes` / `TryFrom<&[u8]> for Card` (src/sys/main.rs lines
86-89 and 99-109): decode the buffer; on any failure (malformed structure,
id out of `u16` range, or unrecognized permission bits) return
`ConversionError::new("Cant convert to Card", value)` carrying the whole
input buffer. -/
def Card.from_bytes (bs : List Char) : Except ConversionError Card :=
  match parseCardJson bs with
  | some (i, m) =>
    if i < 65536 ∧ Permissions.recognized ⟨m⟩ then
      Except.ok ⟨i, ⟨m⟩⟩
    else
      Except.error ⟨"Cant convert to Card", bs⟩
  | none => Except.error ⟨"Cant convert to Card", bs⟩

/-! ## The hardware backend (src/sys/main.rs lines 135-175) -/

/-- `struct SystemBase;` — the no-op reference backend. -/
structure SystemBase
deriving DecidableEq

/-- `SystemBase::Global`. -/
def SystemBase.Global : SystemBase := ⟨⟩

/-- The `static _CARDS: [Card; 0] = []` array inside `SystemBase::sense`. -/
def senseCardsStatic : List Card := []

/-- One `Iterator::next` call on a freshly created iterator over `cards`,
as `cards.iter().next()` does on every loop-condition evaluation. -/
def iterNext (cards : List Card) : Option Card := cards.head?

/-- State of the `while let` loop in `SystemBase::sense`. -/
inductive SenseState
  | running
  | done
deriving DecidableEq

/-- One evaluation of the loop condition
`while let Some(_card) = _CARDS.iter().next() {}`: the loop keeps running
iff a fresh iterator yields an element. -/
def senseStep (cards : List Card) : SenseState → SenseState
  | SenseState.running =>
    match iterNext cards with
    | some _ => SenseState.running
    | none => SenseState.done
  | SenseState.done => SenseState.done

/-- The sense loop after `n` condition evaluations. -/
def senseRun (cards : List Card) : Nat → SenseState
  | 0 => SenseState.running
  | n + 1 => senseStep cards (senseRun cards n)

/-! ## The registry (src/sys/main.rs lines 177-258)

`NfcService { cards: BTreeMap<u16, Card>, system: S }`.  The `BTreeMap` is
embedded as an association list kept sorted by strictly ascending key, which
is exactly the ordered-unique-key contract its operations rely on. -/

/-- Insert into a key-sorted association list, replacing an equal key. -/
def insertSorted (k : Nat) (v : Card) : List (Nat × Card) → List (Nat × Card)
  | [] => [(k, v)]
  | (k', v') :: rest =>
    if k < k' then (k, v) :: (k', v') :: rest
    else if k = k' then (k, v) :: rest
    else (k', v') :: insertSorted k v rest

/-- Look up the value bound to a key (`BTreeMap::get`). -/
def lookupKey (k : Nat) : List (Nat × Card) → Option Card
  | [] => none
  | (k', v) :: rest => if k' = k then some v else lookupKey k rest

/-- Remove the entry bound to a key (`BTreeMap::remove`). -/
def removeKey (k : Nat) : List (Nat × Card) → List (Nat × Card)
  | [] => []
  | (k', v) :: rest => if k' = k then rest else (k', v) :: removeKey k rest

/-- `struct NfcService<S: Kernel> { cards: BTreeMap<u16, Card>, system: S }`,
instantiated (as in `fn main`) at the `SystemBase` backend. -/
structure NfcService where
  cards : List (Nat × Card)
  system : SystemBase
deriving DecidableEq

namespace NfcService

/-- `NfcService::new()`: empty map, global system backend. -/
def new : NfcService := ⟨[], SystemBase.Global⟩

/-- `NfcService::len`. -/
def len (s : NfcService) : Nat := s.cards.length

/-- `NfcService::cards()` — the value snapshot `self.cards.values().collect()`
(renamed from the source's `cards` because the struct field keeps that
name). -/
def cardsSnapshot (s : NfcService) : List Card := s.cards.map Prod.snd

/-- `NfcService::unbind`: `self.cards.remove(card_id)`, returning the updated
service together with the removed Card, if any. -/
def unbind (s : NfcService) (card_id : Nat) : NfcService × Option Card :=
  (⟨removeKey card_id s.cards, s.system⟩, lookupKey card_id s.cards)

/-- `NfcService::put`: `self.cards.insert(card.id, card)`, discarding the
previous binding. -/
def put (s : NfcService) (card : Card) : NfcService :=
  ⟨insertSorted card.id card s.cards, s.system⟩

/-- `NfcService::get`. -/
def get (s : NfcService) (card_id : Nat) : Option Card :=
  lookupKey card_id s.cards

/-- `NfcService::contains`. -/
def containsCard (s : NfcService) (card_id : Nat) : Bool :=
  (lookupKey card_id s.cards).isSome

end NfcService

/-- A registry mutation: the two `&mut self` operations. -/
inductive Op
  | put (c : Card)
  | unbind (k : Nat)

/-- Apply one mutation to the service. -/
def applyOp (s : NfcService) : Op → NfcService
  | Op.put c => s.put c
  | Op.unbind k => (s.unbind k).1

/-- The registry reached from the empty registry by a sequence of
`put`/`unbind` calls. -/
def run (ops : List Op) : NfcService :=
  ops.foldl applyOp NfcService.new

/-! ## Invariant predicates used by the statements -/

/-- The buffer does not begin with a decimal digit (so a digit run that ends
right before it is maximal). -/
def nonDigitStart : List Char → Bool
  | [] => true
  | c :: _ => !isDigitChar c

/-- Every stored entry's key equals the id of the Card stored under it. -/
def KeysMatch (l : List (Nat × Card)) : Prop :=
  ∀ p ∈ l, p.1 = p.2.id

/-- The entries are in strictly ascending key order. -/
def SortedKeys (l : List (Nat × Card)) : Prop :=
  List.Pairwise (fun p q => p.1 < q.1) l

/-! ## Association-list lemmas -/

theorem lookupKey_insertSorted_self (k : Nat) (v : Card) (l : List (Nat × Card)) :
    lookupKey k (insertSorted k v l) = some v := by
  induction l with
  | nil => simp [insertSorted, lookupKey]
  | cons p rest ih =>
    obtain ⟨k', v'⟩ := p
    by_cases h1 : k < k'
    · simp [insertSorted, h1, lookupKey]
    · by_cases h2 : k = k'
      · simp [insertSorted, h1, h2, lookupKey]
      · have hne : ¬k' = k := fun h => h2 h.symm
        simp [insertSorted, h1, h2, lookupKey, hne, ih]

theorem lookupKey_insertSorted_ne (k j : Nat) (v : Card) (l : List (Nat × Card))
    (h : j ≠ k) : lookupKey j (insertSorted k v l) = lookupKey j l := by
  have hkj : ¬k = j := fun hh => h hh.symm
  induction l with
  | nil => simp [insertSorted, lookupKey, hkj]
  | cons p rest ih =>
    obtain ⟨k', v'⟩ := p
    by_cases h1 : k < k'
    · simp [insertSorted, h1, lookupKey, hkj]
    · by_cases h2 : k = k'
      · subst h2
        simp [insertSorted, h1, lookupKey, hkj]
      · simp [insertSorted, h1, h2, lookupKey, ih]

theorem removeKey_sublist (k : Nat) (l : List (Nat × Card)) :
    (removeKey k l).Sublist l := by
  induction l with
  | nil => simp [removeKey]
  | cons p rest ih =>
    obtain ⟨k', v'⟩ := p
    by_cases h : k' = k
    · simp only [removeKey, if_pos h]
      exact List.sublist_cons_self (k', v') rest
    · simp only [removeKey, if_neg h]
      exact List.Sublist.cons₂ _ ih

theorem lookupKey_removeKey_ne (k j : Nat) (l : List (Nat × Card)) (h : j ≠ k) :
    lookupKey j (removeKey k l) = lookupKey j l := by
  induction l with
  | nil => simp [removeKey]
  | cons p rest ih =>
    obtain ⟨k', v'⟩ := p
    by_cases h1 : k' = k
    · subst h1
      have hkj : ¬k' = j := fun hh => h hh.symm
      simp [removeKey, lookupKey, hkj]
    · by_cases h2 : k' = j
      · subst h2
        simp [removeKey, lookupKey, h1]
      · simp [removeKey, h1, lookupKey, h2, ih]

theorem mem_insertSorted (k : Nat) (v : Card) (l : List (Nat × Card))
    (p : Nat × Card) (hp : p ∈ insertSorted k v l) : p = (k, v) ∨ p ∈ l := by
  induction l with
  | nil =>
    simp [insertSorted] at hp
    exact Or.inl hp
  | cons q rest ih =>
    obtain ⟨k', v'⟩ := q
    by_cases h1 : k < k'
    · simp only [insertSorted, if_pos h1, List.mem_cons] at hp
      simp only [List.mem_cons]
      tauto
    · by_cases h2 : k = k'
      · subst h2
        simp only [insertSorted, if_neg h1, eq_self_iff_true, if_true,
          List.mem_cons] at hp
        simp only [List.mem_cons]
        tauto
      · simp only [insertSorted, if_neg h1, if_neg h2, List.mem_cons] at hp
        simp only [List.mem_cons]
        rcases hp with hh | hh
        · tauto
        · rcases ih hh with h3 | h3 <;> tauto

theorem keysMatch_insertSorted (c : Card) (l : List (Nat × Card))
    (h : KeysMatch l) : KeysMatch (insertSorted c.id c l) := by
  intro p hp
  rcases mem_insertSorted c.id c l p hp with hh | hh
  · subst hh; rfl
  · exact h p hh

theorem keysMatch_removeKey (k : Nat) (l : List (Nat × Card))
    (h : KeysMatch l) : KeysMatch (removeKey k l) :=
  fun p hp => h p ((removeKey_sublist k l).subset hp)

theorem sortedKeys_insertSorted (k : Nat) (v : Card) (l : List (Nat × Card))
    (h : SortedKeys l) : SortedKeys (insertSorted k v l) := by
  induction l with
  | nil => simp [insertSorted, SortedKeys]
  | cons p rest ih =>
    obtain ⟨k', v'⟩ := p
    rw [SortedKeys, List.pairwise_cons] at h
    obtain ⟨h1, h2⟩ := h
    by_cases hlt : k < k'
    · rw [SortedKeys]
      simp only [insertSorted, if_pos hlt, List.pairwise_cons]
      refine ⟨?_, ?_, h2⟩
      · intro q hq
        rcases List.mem_cons.mp hq with hh | hh
        · subst hh; exact hlt
        · exact Nat.lt_trans hlt (h1 q hh)
      · exact h1
    · by_cases heq : k = k'
      · rw [SortedKeys]
        simp only [insertSorted, if_neg hlt, if_pos heq, List.pairwise_cons]
        subst heq
        exact ⟨h1, h2⟩
      · rw [SortedKeys]
        simp only [insertSorted, if_neg hlt, if_neg heq, List.pairwise_cons]
        refine ⟨?_, ih h2⟩
        intro q hq
        rcases mem_insertSorted k v rest q hq with hh | hh
        · subst hh; omega
        · exact h1 q hh

theorem sortedKeys_removeKey (k : Nat) (l : List (Nat × Card))
    (h : SortedKeys l) : SortedKeys (removeKey k l) :=
  List.Pairwise.sublist (removeKey_sublist k l) h

theorem keysMatch_applyOp (s : NfcService) (o : Op) (h : KeysMatch s.cards) :
    KeysMatch (applyOp s o).cards := by
  cases o with
  | put c => exact keysMatch_insertSorted c s.cards h
  | unbind k => exact keysMatch_removeKey k s.cards h

theorem sortedKeys_applyOp (s : NfcService) (o : Op) (h : SortedKeys s.cards) :
    SortedKeys (applyOp s o).cards := by
  cases o with
  | put c => exact sortedKeys_insertSorted c.id c s.cards h
  | unbind k => exact sortedKeys_removeKey k s.cards h

theorem keysMatch_run (ops : List Op) : KeysMatch (run ops).cards := by
  rw [run]
  have general : ∀ (l : List Op) (s : NfcService), KeysMatch s.cards →
      KeysMatch (l.foldl applyOp s).cards := by
    intro l
    induction l with
    | nil => exact fun s h => h
    | cons o rest ih => exact fun s h => ih _ (keysMatch_applyOp s o h)
  exact general ops NfcService.new (by intro p hp; simp [NfcService.new] at hp)

theorem sortedKeys_run (ops : List Op) : SortedKeys (run ops).cards := by
  rw [run]
  have general : ∀ (l : List Op) (s : NfcService), SortedKeys s.cards →
      SortedKeys (l.foldl applyOp s).cards := by
    intro l
    induction l with
    | nil => exact fun s h => h
    | cons o rest ih => exact fun s h => ih _ (sortedKeys_applyOp s o h)
  exact general ops NfcService.new (by simp [NfcService.new, SortedKeys])

/-! ## The claims about the registry -/

/-- Claim C4: for every registry reachable from the empty registry by any
finite sequence of `put` and `unbind` calls, every stored entry's key equals
the `id` field of the Card stored under that key. -/
theorem registry_keys_match_ids (ops : List Op) (k : Nat) (c : Card)
    (h : (k, c) ∈ (run ops).cards) : k = c.id :=
  keysMatch_run ops (k, c) h

theorem registry_keys_match_ids_witness :
    ((5, Card.new 5 Permissions.REGULAR) ∈
      (run [Op.put (Card.new 5 Permissions.REGULAR)]).cards) ∧
    5 = (Card.new 5 Permissions.REGULAR).id :=
  ⟨by decide,
   registry_keys_match_ids [Op.put (Card.new 5 Permissions.REGULAR)] 5
     (Card.new 5 Permissions.REGULAR) (by decide)⟩

/-- Claim C5: `put` always succeeds and overwrites silently with
last-write-wins semantics: for Cards `A` and `B` with the same id, `put(A)`
then `put(B)` then `get` of that id returns `B`. -/
theorem put_last_write_wins (s : NfcService) (A B : Card) (h : A.id = B.id) :
    ((s.put A).put B).get A.id = some B := by
  rw [h]
  simp [NfcService.put, NfcService.get, lookupKey_insertSorted_self]

theorem put_last_write_wins_witness :
    ((NfcService.new.put (Card.new 5 Permissions.REGULAR)).put
      (Card.new 5 Permissions.ADMIN)).get (Card.new 5 Permissions.REGULAR).id =
      some (Card.new 5 Permissions.ADMIN) :=
  put_last_write_wins NfcService.new (Card.new 5 Permissions.REGULAR)
    (Card.new 5 Permissions.ADMIN) (by decide)

/-- Claim C6: for every reachable registry state, `cards()` returns a
snapshot containing exactly the stored Cards, one per entry, in strictly
ascending order of card id. -/
theorem cards_sorted_snapshot (ops : List Op) :
    (run ops).cardsSnapshot.length = (run ops).len ∧
    (∀ c : Card, c ∈ (run ops).cardsSnapshot ↔ ∃ k, (k, c) ∈ (run ops).cards) ∧
    List.Pairwise (fun a b : Card => a.id < b.id) (run ops).cardsSnapshot := by
  refine ⟨by simp [NfcService.cardsSnapshot, NfcService.len], ?_, ?_⟩
  · intro c
    rw [NfcService.cardsSnapshot]
    constructor
    · intro hc
      obtain ⟨⟨k, c'⟩, hm, hc'⟩ := List.mem_map.mp hc
      exact ⟨k, by rw [show c' = c from hc'] at hm; exact hm⟩
    · rintro ⟨k, hk⟩
      exact List.mem_map.mpr ⟨(k, c), hk, rfl⟩
  · have hs := sortedKeys_run ops
    have hk := keysMatch_run ops
    rw [NfcService.cardsSnapshot, List.pairwise_map]
    refine List.Pairwise.imp_of_mem ?_ hs
    intro p q hp hq hlt
    rw [← hk p hp, ← hk q hq]
    exact hlt

/-- Claim C10: frame property of registry mutation: `put(c)` leaves every
stored entry whose key differs from `c.id` unchanged, and `unbind(i)` leaves
every stored entry whose key differs from `i` unchanged.  (The read-only
operations `get`, `contains`, `cards` and `len` take the registry by shared
reference and are embedded as pure functions of it, so they cannot modify
it.) -/
theorem registry_frame (s : NfcService) (c : Card) (i k : Nat) :
    (k ≠ c.id → (s.put c).get k = s.get k) ∧
    (k ≠ i → ((s.unbind i).1).get k = s.get k) := by
  constructor
  · intro h
    simp [NfcService.put, NfcService.get, lookupKey_insertSorted_ne _ _ _ _ h]
  · intro h
    simp [NfcService.unbind, NfcService.get, lookupKey_removeKey_ne _ _ _ h]

theorem registry_frame_witness :
    ((NfcService.new.put (Card.new 2 Permissions.REGULAR)).get 3 =
      NfcService.new.get 3) ∧
    (((NfcService.new.unbind 1).1).get 3 = NfcService.new.get 3) :=
  ⟨(registry_frame NfcService.new (Card.new 2 Permissions.REGULAR) 1 3).1
     (by decide),
   (registry_frame NfcService.new (Card.new 2 Permissions.REGULAR) 1 3).2
     (by decide)⟩

/-! ## The claims about permissions -/

/-- Claim C7: `Permissions::privileged()` equals the set of all recognized
capabilities with `NONE` excluded; in particular it never contains `NONE`
and contains each of `REGULAR`, `IT_SUPPORT`, `OPEN_DOORS`, `ADMIN` and
`SUPER_ADMIN`. -/
theorem privileged_excludes_none :
    Permissions.privileged =
      ((((Permissions.REGULAR.union Permissions.IT_SUPPORT).union
        Permissions.OPEN_DOORS).union Permissions.ADMIN).union
        Permissions.SUPER_ADMIN) ∧
    Permissions.privileged.contains Permissions.NONE = false ∧
    Permissions.privileged.contains Permissions.REGULAR = true ∧
    Permissions.privileged.contains Permissions.IT_SUPPORT = true ∧
    Permissions.privileged.contains Permissions.OPEN_DOORS = true ∧
    Permissions.privileged.contains Permissions.ADMIN = true ∧
    Permissions.privileged.contains Permissions.SUPER_ADMIN = true := by
  decide

/-- Claim C8: for all permission sets `a` and `b`, `a.union(b)` contains
both `a` and `b`, and `a.intersect(a) = a`. -/
theorem permission_set_algebra (a b : Permissions) :
    (a.union b).contains a = true ∧ (a.union b).contains b = true ∧
    a.intersect a = a := by
  obtain ⟨x⟩ := a
  obtain ⟨y⟩ := b
  refine ⟨?_, ?_, ?_⟩
  · simp only [Permissions.union, Permissions.contains, beq_iff_eq]
    apply Nat.eq_of_testBit_eq
    intro i
    simp only [Nat.testBit_and, Nat.testBit_or]
    cases x.testBit i <;> cases y.testBit i <;> rfl
  · simp only [Permissions.union, Permissions.contains, beq_iff_eq]
    apply Nat.eq_of_testBit_eq
    intro i
    simp only [Nat.testBit_and, Nat.testBit_or]
    cases x.testBit i <;> cases y.testBit i <;> rfl
  · simp [Permissions.intersect, Nat.and_self]

/-! ## The claim about the reference backend -/

/-- Claim C9: the reference backend's `sense()` terminates when its card
list is empty: the `static _CARDS` array is empty, and the `while let` loop
(which builds a fresh iterator on every condition evaluation) reaches the
`done` state after finitely many steps. -/
theorem sense_terminates_on_empty :
    senseCardsStatic = [] ∧
    ∃ n, senseRun senseCardsStatic n = SenseState.done :=
  ⟨rfl, 1, rfl⟩

/-! ## Wire-format lemmas -/

theorem skipWs_cons_of_not_ws (c : Char) (l : List Char) (h : isWs c = false) :
    skipWs (c :: l) = c :: l := by
  simp [skipWs, h]

theorem dropLit_append (lit rest : List Char) :
    dropLit lit (lit ++ rest) = some rest := by
  induction lit with
  | nil => rfl
  | cons c cs ih => simp [dropLit, ih]

theorem token_cons_append (c : Char) (l rest : List Char) (h : isWs c = false) :
    token (c :: l) ((c :: l) ++ rest) = some rest := by
  rw [token, List.cons_append, skipWs_cons_of_not_ws _ _ h, ← List.cons_append,
    dropLit_append]

theorem token_self_append (lit rest : List Char) (c : Char) (l : List Char)
    (hlit : lit = c :: l) (h : isWs c = false) :
    token lit (lit ++ rest) = some rest := by
  subst hlit
  exact token_cons_append c l rest h

theorem dChar_toNat (d : Nat) (h : d < 10) : (dChar d).toNat = 48 + d := by
  interval_cases d <;> decide

theorem isDigitChar_dChar (d : Nat) (h : d < 10) :
    isDigitChar (dChar d) = true := by
  interval_cases d <;> decide

theorem not_isWs_dChar (d : Nat) (h : d < 10) : isWs (dChar d) = false := by
  interval_cases d <;> decide

theorem parseDigits_map_append (ds : List Nat) (rest : List Char)
    (hds : ∀ d ∈ ds, d < 10) (hr : nonDigitStart rest = true) :
    parseDigits (ds.map dChar ++ rest) = (ds, rest) := by
  induction ds with
  | nil =>
    cases rest with
    | nil => rfl
    | cons c t =>
      rw [nonDigitStart] at hr
      have hc : isDigitChar c = false := by
        cases hh : isDigitChar c
        · rfl
        · rw [hh] at hr; exact absurd hr (by decide)
      simp [parseDigits, hc]
  | cons d ds ih =>
    have hd : d < 10 := hds d (by simp)
    have hrest : ∀ x ∈ ds, x < 10 := fun x hx => hds x (by simp [hx])
    simp only [List.map_cons, List.cons_append, parseDigits,
      isDigitChar_dChar d hd, if_true, ih hrest, dChar_toNat d hd]
    simp [ih hrest]

theorem parseNat_of_parseDigits (cs : List Char) (ds : List Nat)
    (rest : List Char) (h : parseDigits cs = (ds, rest)) (hne : ds ≠ []) :
    parseNat cs = some (Nat.ofDigits 10 ds.reverse, rest) := by
  rw [parseNat, h]
  cases ds with
  | nil => exact absurd rfl hne
  | cons d t => rfl

theorem printNatAux_eq_digits (fuel n : Nat) (h : n ≤ fuel) :
    printNatAux fuel n = (Nat.digits 10 n).map dChar := by
  induction fuel generalizing n with
  | zero =>
    have hn : n = 0 := Nat.le_zero.mp h
    subst hn
    simp [printNatAux]
  | succ f ih =>
    by_cases hn : n = 0
    · subst hn
      simp [printNatAux]
    · rw [printNatAux, if_neg hn]
      have hdiv : n / 10 ≤ f := by
        have h1 : n / 10 < n := Nat.div_lt_self (Nat.pos_of_ne_zero hn) (by omega)
        omega
      rw [ih _ hdiv, Nat.digits_def' (by omega : 1 < 10) (Nat.pos_of_ne_zero hn)]
      simp

theorem parseNat_printNat (n : Nat) (rest : List Char)
    (hr : nonDigitStart rest = true) :
    parseNat (printNat n ++ rest) = some (n, rest) := by
  by_cases hn : n = 0
  · subst hn
    rw [printNat, if_pos rfl,
      show ([dChar 0] : List Char) = ([0] : List Nat).map dChar from rfl]
    rw [parseNat_of_parseDigits _ [0] rest
      (parseDigits_map_append [0] rest (by simp) hr) (by simp)]
    simp [Nat.ofDigits]
  · rw [printNat, if_neg hn, printNatAux_eq_digits n n le_rfl, ← List.map_reverse]
    have hlt : ∀ d ∈ (Nat.digits 10 n).reverse, d < 10 := by
      intro d hd
      exact Nat.digits_lt_base (by omega) (List.mem_reverse.mp hd)
    have hne : (Nat.digits 10 n).reverse ≠ [] := by
      simp [Nat.digits_ne_nil_iff_ne_zero.mpr hn]
    rw [parseNat_of_parseDigits _ _ rest
      (parseDigits_map_append _ rest hlt hr) hne]
    rw [List.reverse_reverse, Nat.ofDigits_digits]

theorem printNat_head_not_ws (n : Nat) :
    ∃ c t, printNat n = c :: t ∧ isWs c = false := by
  by_cases hn : n = 0
  · subst hn
    exact ⟨dChar 0, [], rfl, by decide⟩
  · rw [printNat, if_neg hn, printNatAux_eq_digits n n le_rfl, ← List.map_reverse]
    have hne : (Nat.digits 10 n).reverse ≠ [] := by
      simp [Nat.digits_ne_nil_iff_ne_zero.mpr hn]
    obtain ⟨d, t, ht⟩ := List.exists_cons_of_ne_nil hne
    refine ⟨dChar d, t.map dChar, by rw [ht]; rfl, ?_⟩
    have hd : d ∈ Nat.digits 10 n := by
      rw [← List.mem_reverse, ht]
      simp
    exact not_isWs_dChar d (Nat.digits_lt_base (by omega) hd)

theorem parseNatToken_printNat (n : Nat) (rest : List Char)
    (hr : nonDigitStart rest = true) :
    parseNatToken (printNat n ++ rest) = some (n, rest) := by
  obtain ⟨c, t, hct, hws⟩ := printNat_head_not_ws n
  rw [parseNatToken, hct, List.cons_append, skipWs_cons_of_not_ws _ _ hws,
    ← List.cons_append, ← hct]
  exact parseNat_printNat n rest hr

theorem parseCardJson_cardText (i m : Nat) :
    parseCardJson (cardText i m) = some (i, m) := by
  have t1 : token [lbrace] (cardText i m) =
      some (idKey ++ [':'] ++ printNat i ++ [','] ++ permKey ++ [':'] ++
        printNat m ++ [rbrace]) := by
    rw [cardText]
    exact token_self_append [lbrace] _ lbrace [] rfl (by decide)
  have t2 : token idKey (idKey ++ [':'] ++ printNat i ++ [','] ++ permKey ++
      [':'] ++ printNat m ++ [rbrace]) =
      some ([':'] ++ printNat i ++ [','] ++ permKey ++ [':'] ++
        printNat m ++ [rbrace]) :=
    token_self_append idKey _ '\"' ['i', 'd', '\"'] rfl (by decide)
  have t3 : token [':'] ([':'] ++ printNat i ++ [','] ++ permKey ++ [':'] ++
      printNat m ++ [rbrace]) =
      some (printNat i ++ [','] ++ permKey ++ [':'] ++ printNat m ++
        [rbrace]) :=
    token_self_append [':'] _ ':' [] rfl (by decide)
  have t4 : parseNatToken (printNat i ++ [','] ++ permKey ++ [':'] ++
      printNat m ++ [rbrace]) =
      some (i, [','] ++ permKey ++ [':'] ++ printNat m ++ [rbrace]) := by
    rw [List.append_assoc, List.append_assoc, List.append_assoc,
      List.append_assoc]
    rw [← List.append_assoc (printNat i)]
    rw [List.append_assoc]
    exact parseNatToken_printNat i _ rfl
  have t5 : token [','] ([','] ++ permKey ++ [':'] ++ printNat m ++
      [rbrace]) =
      some (permKey ++ [':'] ++ printNat m ++ [rbrace]) :=
    token_self_append [','] _ ',' [] rfl (by decide)
  have t6 : token permKey (permKey ++ [':'] ++ printNat m ++ [rbrace]) =
      some ([':'] ++ printNat m ++ [rbrace]) :=
    token_self_append permKey _ '\"'
      ['p', 'e', 'r', 'm', 'i', 's', 's', 'i', 'o', 'n', 's', '\"'] rfl
      (by decide)
  have t7 : token [':'] ([':'] ++ printNat m ++ [rbrace]) =
      some (printNat m ++ [rbrace]) :=
    token_self_append [':'] _ ':' [] rfl (by decide)
  have t8 : parseNatToken (printNat m ++ [rbrace]) = some (m, [rbrace]) :=
    parseNatToken_printNat m [rbrace] (by decide)
  have t9 : token [rbrace] [rbrace] = some [] := by
    rw [token, skipWs_cons_of_not_ws rbrace [] (by decide)]
    simp [dropLit]
  simp only [parseCardJson, t1, t2, t3, t4, t5, t6, t7, t8, t9]
  simp [skipWs]

/-! ## The claims about the wire format -/

/-- Claim C3: encoding via `as_bytes` never fails: the error branch of the
underlying serialization (the source's unchecked unwrap) is unreachable, and
`as_bytes` totally returns the serialized byte vector for every Card. -/
theorem as_bytes_never_fails (c : Card) :
    serde_json_to_vec c = Except.ok (Card.as_bytes c) :=
  rfl

/-- Claim C1: for every constructible Card (any id in `0..=65535` paired
with a recognized permission set), decoding the bytes produced by encoding
it succeeds and yields an equal Card. -/
theorem roundtrip_decode_encode (c : Card) (h1 : c.id < 65536)
    (h2 : Permissions.recognized c.permissions = true) :
    Card.from_bytes (Card.as_bytes c) = Except.ok c := by
  obtain ⟨i, ⟨m⟩⟩ := c
  rw [show Card.as_bytes ⟨i, ⟨m⟩⟩ = cardText i m from rfl]
  simp only [Card.from_bytes, parseCardJson_cardText]
  rw [if_pos ⟨h1, h2⟩]

theorem roundtrip_decode_encode_witness :
    Card.from_bytes (Card.as_bytes (Card.new 7 Permissions.REGULAR)) =
      Except.ok (Card.new 7 Permissions.REGULAR) :=
  roundtrip_decode_encode (Card.new 7 Permissions.REGULAR) (by decide)
    (by decide)

/-- Claim C2: for every byte buffer whose `permissions` field carries any
bit outside the six recognized flags, `from_bytes` fails with a
`ConversionError` whose `bytes` field is the offending input buffer. -/
theorem decode_rejects_unknown_bits (bs : List Char) (i m : Nat)
    (hp : parseCardJson bs = some (i, m))
    (hm : Permissions.recognized ⟨m⟩ = false) :
    Card.from_bytes bs = Except.error ⟨"Cant convert to Card", bs⟩ := by
  simp only [Card.from_bytes, hp]
  rw [if_neg]
  intro hcontra
  rw [hm] at hcontra
  exact absurd hcontra.2 (by decide)

theorem decode_rejects_unknown_bits_witness :
    Card.from_bytes ("\x7b\"id\": 1, \"permissions\": 64\x7d".data) =
      Except.error
        ⟨"Cant convert to Card", "\x7b\"id\": 1, \"permissions\": 64\x7d".data⟩ :=
  decode_rejects_unknown_bits _ 1 64 (by decide) (by decide)

end Lowa
